import Mathlib

/-!
A verification development for the lc0 self-play control plane:
the command loop / orchestrator and protocol formatting of
`src/selfplay/loop.cc` and the search parameter registry of
`src/mcts/params.h`.

Strings are modelled as `List Char` (the character data of the C++
`std::string` values being concatenated); numeric code is modelled with
exact rationals where the C++ code does arithmetic whose comparisons are
exact, and with real numbers for the transcendental functions
(`log`, `erf`, `sqrt`) from `<cmath>`.
-/

namespace Lc0

/-! ### String utilities: the pieces of `<string>` / `<sstream>` / `<iomanip>`
behaviour used by `loop.cc`. -/

/-- Decimal digit character: `digitChar d` is the character `'0' + d`
(meaningful for `d < 10`). -/
def digitChar (d : ℕ) : Char := Char.ofNat (48 + d)

/-- Digit-production loop, structurally recursive on a fuel argument so that
it evaluates by kernel reduction; `natDigits` supplies adequate fuel. -/
def natDigitsAux : ℕ → ℕ → List Char
  | 0, _ => []
  | fuel + 1, n =>
    if n < 10 then [digitChar n]
    else natDigitsAux fuel (n / 10) ++ [digitChar (n % 10)]

/-- Decimal digits of a natural number, most significant first, as produced
by `std::to_string` (`n + 1` fuel always suffices since `n / 10 < n`). -/
def natDigits (n : ℕ) : List Char := natDigitsAux (n + 1) n

/-- `std::to_string` on a (signed) integer. -/
def intChars (n : ℤ) : List Char :=
  if n < 0 then '-' :: natDigits n.natAbs else natDigits n.toNat

/-- Two zero-padded decimal digits of `r % 100`. -/
def twoDigits (r : ℕ) : List Char := [digitChar (r / 10 % 10), digitChar (r % 10)]

/-- Renders a signed count of hundredths as a fixed two-decimal number,
e.g. `9873 ↦ "98.73"`, `0 ↦ "0.00"`: the digit production of
`ostream << std::fixed << std::setprecision(2)`. -/
def hundChars (n : ℤ) : List Char :=
  if n < 0 then '-' :: (natDigits (n.natAbs / 100) ++ '.' :: twoDigits (n.natAbs % 100))
  else natDigits (n.toNat / 100) ++ '.' :: twoDigits (n.toNat % 100)

/-- `std::setw(5)`: right-justify in a field of width 5, space-filled. -/
def pad5 (l : List Char) : List Char := List.replicate (5 - l.length) ' ' ++ l

/-- `ostream << std::fixed << std::setw(5) << std::setprecision(2) << x` for a
rational value: round to nearest hundredth (ties rounded up) and render. -/
def fmt2Q (x : ℚ) : List Char := pad5 (hundChars ⌊x * 100 + 1/2⌋)

/-- `ostream << std::fixed << std::setw(5) << std::setprecision(2) << x` for a
real value: round to nearest hundredth (ties rounded up) and render. -/
noncomputable def fmt2R (x : ℝ) : List Char := pad5 (hundChars ⌊x * 100 + 1/2⌋)

/-- Six zero-padded decimal digits of `r` (meaningful for `r < 10^6`). -/
def sixDigits (r : ℕ) : List Char :=
  List.replicate (6 - (natDigits r).length) '0' ++ natDigits r

/-- `std::to_string` on a floating point value: `%.6f` formatting,
modelled on an exact rational with round-to-nearest (ties up). -/
def fmt6Q (x : ℚ) : List Char :=
  if x < 0 then '-' :: (natDigits ((⌊-x * 1000000 + 1/2⌋).toNat / 1000000) ++
    '.' :: sixDigits ((⌊-x * 1000000 + 1/2⌋).toNat % 1000000))
  else natDigits ((⌊x * 1000000 + 1/2⌋).toNat / 1000000) ++
    '.' :: sixDigits ((⌊x * 1000000 + 1/2⌋).toNat % 1000000)

/-- Splits a character list on spaces into its (possibly empty) tokens. -/
def splitSp : List Char → List (List Char)
  | [] => [[]]
  | c :: r =>
    if c = ' ' then [] :: splitSp r
    else
      match splitSp r with
      | [] => [[c]]
      | t :: ts => (c :: t) :: ts

/-- Decides whether `p` begins `s`. -/
def begB : List Char → List Char → Bool
  | [], _ => true
  | _ :: _, [] => false
  | a :: as, b :: bs => a = b && begB as bs

/-- Decides whether `p` occurs contiguously inside `s` (substring test). -/
def subB (p : List Char) : List Char → Bool
  | [] => p.isEmpty
  | c :: r => begB p (c :: r) || subB p r

/-! ### The per-game completion event (`GameInfo`) and
`SelfPlayLoop::SendGameInfo` of `src/selfplay/loop.cc`. -/

/-- The `GameResult` enumeration. -/
inductive GameResult
  | UNDECIDED
  | WHITE_WON
  | DRAW
  | BLACK_WON
deriving DecidableEq

/-- The per-game completion event: game identifier, side played, terminal
result, realized move sequence (each move already rendered by
`Move::as_string`), training output file name, and the optional
early-resignation confidence threshold. -/
structure GameInfo where
  game_result : GameResult
  training_filename : String
  game_id : ℤ
  is_black : Option Bool
  min_false_positive_threshold : Option ℚ
  moves : List String

/-- The move-list suffix appended by the loop
`for (const auto& move : info.moves) res += " " + move.as_string();`. -/
def movesChars (ms : List String) : List Char :=
  (ms.map fun m => ' ' :: m.data).flatten

/-- The word appended after `" result "`. -/
def resultChars (g : GameResult) : List Char :=
  if g = GameResult.DRAW then "draw".data
  else if g = GameResult.WHITE_WON then "whitewon".data
  else "blackwon".data

/-- The `gameready` response line built by `SelfPlayLoop::SendGameInfo`. -/
def gameReadyChars (info : GameInfo) : List Char :=
  "gameready".data
  ++ (if info.training_filename.data ≠ [] then
        " trainingfile ".data ++ info.training_filename.data
      else [])
  ++ (if info.game_id ≠ -1 then " gameid ".data ++ intChars info.game_id else [])
  ++ (match info.is_black with
      | some b => " player1 ".data ++ (if b then "black".data else "white".data)
      | none => [])
  ++ (if info.game_result ≠ GameResult.UNDECIDED then
        " result ".data ++ resultChars info.game_result
      else [])
  ++ (if info.moves ≠ [] then " moves".data ++ movesChars info.moves else [])

/-- The `gameready` line built with the `gameid` clause skipped: the rendering
of a game "with no identifier". -/
def gameReadyNoIdChars (info : GameInfo) : List Char :=
  "gameready".data
  ++ (if info.training_filename.data ≠ [] then
        " trainingfile ".data ++ info.training_filename.data
      else [])
  ++ (match info.is_black with
      | some b => " player1 ".data ++ (if b then "black".data else "white".data)
      | none => [])
  ++ (if info.game_result ≠ GameResult.UNDECIDED then
        " result ".data ++ resultChars info.game_result
      else [])
  ++ (if info.moves ≠ [] then " moves".data ++ movesChars info.moves else [])

/-- The full response list of `SelfPlayLoop::SendGameInfo`: an optional
`resign_report` line pushed first, then the `gameready` line. -/
def sendGameInfo (info : GameInfo) : List (List Char) :=
  (match info.min_false_positive_threshold with
   | some t => ["resign_report fp_threshold ".data ++ fmt6Q t]
   | none => [])
  ++ [gameReadyChars info]

/-! ### The tournament status event (`TournamentInfo`) and
`SelfPlayLoop::SendTournament` of `src/selfplay/loop.cc`. -/

/-- The tournament aggregate: `results[row][col]` with rows win/draw/loss
(from player 1's perspective) and columns player-1-white / player-1-black,
plus the "finished" flag. -/
structure TournamentInfo where
  results : Fin 3 → Fin 2 → ℤ
  finished : Bool

/-- `winp1 = info.results[0][0] + info.results[0][1]`. -/
def winp1 (t : TournamentInfo) : ℤ := t.results 0 0 + t.results 0 1

/-- `loosep1 = info.results[2][0] + info.results[2][1]`. -/
def loosep1 (t : TournamentInfo) : ℤ := t.results 2 0 + t.results 2 1

/-- `draws = info.results[1][0] + info.results[1][1]`. -/
def draws (t : TournamentInfo) : ℤ := t.results 1 0 + t.results 1 1

/-- The score fraction: `-1` sentinel unless `winp1 + loosep1 + draws > 0`, in
which case `(draws / 2 + winp1) / (winp1 + loosep1 + draws)`.  Exact rational
arithmetic stands in for `float`: every comparison made of it by the code is
exact in both. -/
def percentage (t : TournamentInfo) : ℚ :=
  if 0 < winp1 t + loosep1 t + draws t then
    ((draws t : ℚ) / 2 + (winp1 t : ℚ)) /
      ((winp1 t : ℚ) + (loosep1 t : ℚ) + (draws t : ℚ))
  else -1

/-- The error function `std::erf`. -/
noncomputable def erf (x : ℝ) : ℝ :=
  2 / Real.sqrt Real.pi * ∫ u in (0:ℝ)..x, Real.exp (-(u ^ 2))

/-- The Elo estimate: `10000` sentinel unless `0 < percentage < 1`, in which
case `-400 * log(1 / percentage - 1) / log(10)`. -/
noncomputable def elo (t : TournamentInfo) : ℝ :=
  if percentage t < 1 ∧ 0 < percentage t then
    -400 * Real.log (1 / (percentage t : ℝ) - 1) / Real.log 10
  else 10000

/-- The likelihood of superiority: `10000` sentinel unless
`winp1 + loosep1 > 0`, in which case
`.5 + .5 * erf((winp1 - loosep1) / sqrt(2.0 * (winp1 + loosep1)))`. -/
noncomputable def los (t : TournamentInfo) : ℝ :=
  if 0 < winp1 t + loosep1 t then
    1/2 + 1/2 * erf (((winp1 t : ℝ) - (loosep1 t : ℝ)) /
      Real.sqrt (2 * ((winp1 t : ℝ) + (loosep1 t : ℝ))))
  else 10000

open Classical in
/-- The `tournamentstatus` line built by `SelfPlayLoop::SendTournament`,
grouped exactly as the C++ `res +=` statements. -/
noncomputable def sendTournamentChars (t : TournamentInfo) : List Char :=
  "tournamentstatus".data
  ++ (if t.finished then " final".data else [])
  ++ (" P1: +".data ++ intChars (winp1 t) ++ " -".data ++ intChars (loosep1 t)
      ++ " =".data ++ intChars (draws t))
  ++ (if 0 < percentage t then
        " Win: ".data ++ fmt2Q (percentage t * 100) ++ "%".data
      else [])
  ++ (if elo t < 10000 then " Elo: ".data ++ fmt2R (elo t) else [])
  ++ (if los t < 10000 then " LOS: ".data ++ fmt2R (los t * 100) ++ "%".data else [])
  ++ (" P1-W: +".data ++ intChars (t.results 0 0) ++ " -".data ++ intChars (t.results 2 0)
      ++ " =".data ++ intChars (t.results 1 0))
  ++ (" P1-B: +".data ++ intChars (t.results 0 1) ++ " -".data ++ intChars (t.results 2 1)
      ++ " =".data ++ intChars (t.results 1 1))

/-- The `Win:` field is present in the status line (as a token). -/
noncomputable def winFieldPresent (t : TournamentInfo) : Prop :=
  "Win:".data ∈ splitSp (sendTournamentChars t)

/-- The `Elo:` field is present in the status line (as a token). -/
noncomputable def eloFieldPresent (t : TournamentInfo) : Prop :=
  "Elo:".data ∈ splitSp (sendTournamentChars t)

/-- The `LOS:` field is present in the status line (as a token). -/
noncomputable def losFieldPresent (t : TournamentInfo) : Prop :=
  "LOS:".data ∈ splitSp (sendTournamentChars t)

/-! ### The orchestrator state machine of `SelfPlayLoop`. -/

/-- The orchestrator state: the owned tournament handle and background thread
(identified by allocation numbers, so that constructing a new handle is
observable), plus the allocation counter. -/
structure LoopState where
  tournament_ : Option ℕ
  thread_ : Option ℕ
  nextHandle : ℕ

/-- `SelfPlayLoop::CmdStart`: `if (tournament_) return;` then construct the
tournament handle and start the background thread running it. -/
def CmdStart (s : LoopState) : LoopState :=
  if s.tournament_.isSome then s
  else
    { tournament_ := some s.nextHandle
      thread_ := some (s.nextHandle + 1)
      nextHandle := s.nextHandle + 2 }

/-- The two actions a destructor run can take. -/
inductive DtorStep
  | abortTournament
  | joinThread
deriving DecidableEq

/-- The action sequence of `SelfPlayLoop::~SelfPlayLoop`:
`if (tournament_) tournament_->Abort(); if (thread_) thread_->join();`. -/
def destructorSteps (s : LoopState) : List DtorStep :=
  (if s.tournament_.isSome then [DtorStep.abortTournament] else [])
  ++ (if s.thread_.isSome then [DtorStep.joinThread] else [])

/-- Modelled from the spec: the background tournament context.  The worker
runs `SelfPlayTournament::RunBlocking` (not part of the source in scope);
`aborted` is the cooperative abort signal set by
`SelfPlayTournament::Abort`, and `running` records whether the background
context is still executing.  Per the concurrency contract, `thread::join`
returns only once the context has fully exited, so after a join step the
context is no longer running. -/
structure BgContext where
  aborted : Bool
  running : Bool

/-- Modelled from the spec: effect of one destructor action on the
background context. -/
def stepBg : DtorStep → BgContext → BgContext
  | DtorStep.abortTournament, b => { b with aborted := true }
  | DtorStep.joinThread, b => { b with running := false }

/-- Runs the destructor's action sequence against a background context. -/
def runDestructor (s : LoopState) (b : BgContext) : BgContext :=
  (destructorSteps s).foldl (fun b e => stepBg e b) b

/-! ### The parameter registry of `src/mcts/params.h` (the paired
root / non-root cached accessors). -/

/-- The cached paired search parameters of `SearchParams` (floats modelled as
exact rationals): the snapshot taken at registry construction. -/
structure SearchParams where
  kCcon : ℚ
  kCconAtRoot : ℚ
  kCpen : ℚ
  kCpenAtRoot : ℚ
  kCatt : ℚ
  kCattAtRoot : ℚ
  kFpuAbsolute : Bool
  kFpuAbsoluteAtRoot : Bool
  kFpuValue : ℚ
  kFpuValueAtRoot : ℚ

/-- `GetCcon`: `at_root ? kCconAtRoot : kCcon`. -/
def GetCcon (p : SearchParams) (at_root : Bool) : ℚ :=
  if at_root then p.kCconAtRoot else p.kCcon

/-- `GetCpen`: `at_root ? kCpenAtRoot : kCpen`. -/
def GetCpen (p : SearchParams) (at_root : Bool) : ℚ :=
  if at_root then p.kCpenAtRoot else p.kCpen

/-- `GetCatt`: `at_root ? kCattAtRoot : kCatt`. -/
def GetCatt (p : SearchParams) (at_root : Bool) : ℚ :=
  if at_root then p.kCattAtRoot else p.kCatt

/-- `GetFpuAbsolute`: `at_root ? kFpuAbsoluteAtRoot : kFpuAbsolute`. -/
def GetFpuAbsolute (p : SearchParams) (at_root : Bool) : Bool :=
  if at_root then p.kFpuAbsoluteAtRoot else p.kFpuAbsolute

/-- `GetFpuValue`: `at_root ? kFpuValueAtRoot : kFpuValue`. -/
def GetFpuValue (p : SearchParams) (at_root : Bool) : ℚ :=
  if at_root then p.kFpuValueAtRoot else p.kFpuValue

/-- One invocation of a paired accessor, with its root flag. -/
inductive ParamRead
  | ccon (at_root : Bool)
  | cpen (at_root : Bool)
  | catt (at_root : Bool)
  | fpuAbsolute (at_root : Bool)
  | fpuValue (at_root : Bool)

/-- The value a read produces. -/
inductive ParamValue
  | q (v : ℚ)
  | b (v : Bool)
deriving DecidableEq

/-- An accessor call as a state transformer on the registry: each getter is a
`const` member whose body only reads a cached field, so it returns the value
together with the (unchanged) registry. -/
def readParam (p : SearchParams) : ParamRead → ParamValue × SearchParams
  | ParamRead.ccon r => (ParamValue.q (GetCcon p r), p)
  | ParamRead.cpen r => (ParamValue.q (GetCpen p r), p)
  | ParamRead.catt r => (ParamValue.q (GetCatt p r), p)
  | ParamRead.fpuAbsolute r => (ParamValue.b (GetFpuAbsolute p r), p)
  | ParamRead.fpuValue r => (ParamValue.q (GetFpuValue p r), p)

/-- The registry state after a sequence of accessor calls. -/
def readSeq (p : SearchParams) (rs : List ParamRead) : SearchParams :=
  rs.foldl (fun p r => (readParam p r).2) p

/-! ### Taylor partial sums used to bound `erf`. -/

/-- Partial sum of the Taylor series of `exp (-u)`. -/
noncomputable def expPartial (m : ℕ) (u : ℝ) : ℝ :=
  ∑ n ∈ Finset.range m, (-u) ^ n / (n.factorial : ℝ)

/-- Partial sum of the Taylor series of `∫ t in 0..q, exp (-t^2)`. -/
noncomputable def erfPartial (m : ℕ) (q : ℝ) : ℝ :=
  ∑ n ∈ Finset.range m, (-1) ^ n * q ^ (2 * n + 1) / ((n.factorial : ℝ) * (2 * n + 1))

/-! ### Concrete event instances used by the claims. -/

/-- All-zero tally. -/
def infoZero : TournamentInfo := { results := ![![0, 0], ![0, 0], ![0, 0]], finished := false }

/-- Tally with `win = 5, loss = 0, draw = 0`. -/
def infoWin5 : TournamentInfo := { results := ![![5, 0], ![0, 0], ![0, 0]], finished := false }

/-- A game-completion event with an empty move list and no resignation
threshold. -/
def gameEmpty : GameInfo :=
  { game_result := GameResult.UNDECIDED
    training_filename := ""
    game_id := -1
    is_black := none
    min_false_positive_threshold := none
    moves := [] }

/-- A game-completion event carrying a resignation threshold. -/
def gameWithThreshold : GameInfo :=
  { game_result := GameResult.WHITE_WON
    training_filename := "game.tr"
    game_id := 7
    is_black := some false
    min_false_positive_threshold := some (1/2)
    moves := ["e2e4", "e7e5"] }

/-- A game-completion event with `game_id = -1` and various fields set. -/
def gameSentinelId : GameInfo :=
  { game_result := GameResult.DRAW
    training_filename := "out.tr"
    game_id := -1
    is_black := some true
    min_false_positive_threshold := none
    moves := ["d2d4"] }

/-- An orchestrator state with an active tournament handle and thread. -/
def stateRunning : LoopState := { tournament_ := some 0, thread_ := some 1, nextHandle := 2 }

/-- A live background context (not yet aborted, still running). -/
def bgRunning : BgContext := { aborted := false, running := true }

/-! ### Token-splitting lemmas. -/

theorem splitSp_ne_nil (l : List Char) : splitSp l ≠ [] := by
  cases l with
  | nil => simp [splitSp]
  | cons c r =>
    by_cases h : c = ' '
    · simp [splitSp, h]
    · simp only [splitSp, if_neg h]
      cases splitSp r <;> simp

theorem splitSp_append (a b : List Char) :
    splitSp (a ++ ' ' :: b) = splitSp a ++ splitSp b := by
  induction a with
  | nil => simp [splitSp]
  | cons c r ih =>
    by_cases h : c = ' '
    · simp [splitSp, h, ih]
    · simp only [List.cons_append, splitSp, if_neg h]
      obtain ⟨t, ts, hts⟩ := List.exists_cons_of_ne_nil (splitSp_ne_nil r)
      have ih' : splitSp (r.append (' ' :: b)) = splitSp r ++ splitSp b := ih
      rw [ih', hts]
      simp

theorem mem_of_mem_splitSp {c : Char} :
    ∀ {l x : List Char}, x ∈ splitSp l → c ∈ x → c ∈ l := by
  intro l
  induction l with
  | nil =>
    intro x hx hc
    simp [splitSp] at hx
    subst hx; simp at hc
  | cons a r ih =>
    intro x hx hc
    by_cases h : a = ' '
    · simp only [splitSp, if_pos h] at hx
      rcases List.mem_cons.mp hx with hx | hx
      · subst hx; simp at hc
      · exact List.mem_cons_of_mem a (ih hx hc)
    · simp only [splitSp, if_neg h] at hx
      obtain ⟨t, ts, hts⟩ := List.exists_cons_of_ne_nil (splitSp_ne_nil r)
      rw [hts] at hx
      rcases List.mem_cons.mp hx with hx | hx
      · subst hx
        rcases List.mem_cons.mp hc with hc | hc
        · rw [hc]; exact List.mem_cons_self a r
        · exact List.mem_cons_of_mem a
            (ih (by rw [hts]; exact List.mem_cons_self t ts) hc)
      · exact List.mem_cons_of_mem a
          (ih (by rw [hts]; exact List.mem_cons_of_mem t hx) hc)

/-- A list without spaces is a single token. -/
theorem splitSp_no_space {l : List Char} (h : ∀ c ∈ l, c ≠ ' ') :
    splitSp l = [l] := by
  induction l with
  | nil => simp [splitSp]
  | cons a r ih =>
    have ha : a ≠ ' ' := h a (List.mem_cons_self a r)
    simp only [splitSp, if_neg ha]
    rw [ih fun c hc => h c (List.mem_cons_of_mem a hc)]

theorem splitSp_replicate_append (k : ℕ) (l : List Char) :
    splitSp (List.replicate k ' ' ++ l) = List.replicate k [] ++ splitSp l := by
  induction k with
  | zero => simp
  | succ n ih => simp [List.replicate_succ, splitSp, ih]

/-! ### Character-set lemmas for the digit producers. -/

theorem digitChar_mem {d : ℕ} (hd : d < 10) : digitChar d ∈ "0123456789".data := by
  interval_cases d <;> decide

theorem mem_natDigitsAux {c : Char} :
    ∀ fuel n : ℕ, c ∈ natDigitsAux fuel n → c ∈ "0123456789".data := by
  intro fuel
  induction fuel with
  | zero =>
    intro n hc
    simp [natDigitsAux] at hc
  | succ f ih =>
    intro n hc
    simp only [natDigitsAux] at hc
    by_cases h : n < 10
    · rw [if_pos h] at hc
      rcases List.mem_singleton.mp hc with rfl
      exact digitChar_mem h
    · rw [if_neg h] at hc
      rcases List.mem_append.mp hc with hc | hc
      · exact ih _ hc
      · rcases List.mem_singleton.mp hc with rfl
        exact digitChar_mem (Nat.mod_lt _ (by omega))

theorem mem_natDigits {c : Char} :
    ∀ n : ℕ, c ∈ natDigits n → c ∈ "0123456789".data :=
  fun n h => mem_natDigitsAux (n + 1) n h

theorem mem_intChars {c : Char} (n : ℤ) (h : c ∈ intChars n) :
    c ∈ "-0123456789".data := by
  have dig : c ∈ "0123456789".data → c ∈ "-0123456789".data := by
    intro h
    have e : ("-0123456789".data : List Char) = '-' :: "0123456789".data := rfl
    rw [e]
    exact List.mem_cons_of_mem _ h
  rw [intChars] at h
  by_cases hn : n < 0
  · rw [if_pos hn] at h
    rcases List.mem_cons.mp h with rfl | h
    · decide
    · exact dig (mem_natDigits _ h)
  · rw [if_neg hn] at h
    exact dig (mem_natDigits _ h)

theorem mem_twoDigits {c : Char} (r : ℕ) (h : c ∈ twoDigits r) :
    c ∈ "0123456789".data := by
  rw [twoDigits] at h
  rcases List.mem_cons.mp h with rfl | h
  · exact digitChar_mem (Nat.mod_lt _ (by omega))
  · rcases List.mem_singleton.mp h with rfl
    exact digitChar_mem (Nat.mod_lt _ (by omega))

theorem mem_hundChars {c : Char} (n : ℤ) (h : c ∈ hundChars n) :
    c ∈ "-.0123456789".data := by
  have dig : c ∈ "0123456789".data → c ∈ "-.0123456789".data := by
    intro h
    have e : ("-.0123456789".data : List Char) = '-' :: '.' :: "0123456789".data := rfl
    rw [e]
    exact List.mem_cons_of_mem _ (List.mem_cons_of_mem _ h)
  have core : ∀ a : ℕ, c ∈ natDigits (a / 100) ++ '.' :: twoDigits (a % 100) →
      c ∈ "-.0123456789".data := by
    intro a ha
    rcases List.mem_append.mp ha with ha | ha
    · exact dig (mem_natDigits _ ha)
    · rcases List.mem_cons.mp ha with rfl | ha
      · decide
      · exact dig (mem_twoDigits _ ha)
  rw [hundChars] at h
  by_cases hn : n < 0
  · rw [if_pos hn] at h
    rcases List.mem_cons.mp h with rfl | h
    · decide
    · exact core _ h
  · rw [if_neg hn] at h
    exact core _ h

theorem mem_pad5 {c : Char} {l : List Char} (h : c ∈ pad5 l) : c = ' ' ∨ c ∈ l := by
  rw [pad5] at h
  rcases List.mem_append.mp h with h | h
  · exact Or.inl (List.eq_of_mem_replicate h)
  · exact Or.inr h

theorem intChars_no_space {n : ℤ} : ∀ c ∈ intChars n, c ≠ ' ' := by
  intro c hc he
  have := mem_intChars n hc
  rw [he] at this
  revert this; decide

theorem hundChars_no_space {n : ℤ} : ∀ c ∈ hundChars n, c ≠ ' ' := by
  intro c hc he
  have := mem_hundChars n hc
  rw [he] at this
  revert this; decide

/-! ### Substring-test lemmas. -/

theorem begB_append (p r : List Char) : begB p (p ++ r) = true := by
  induction p with
  | nil => rfl
  | cons a as ih => simp [begB, ih]

theorem begB_self (p : List Char) : begB p p = true := by
  have := begB_append p []
  rwa [List.append_nil] at this

theorem subB_of_begB {p s : List Char} (h : begB p s = true) : subB p s = true := by
  cases s with
  | nil =>
    cases p with
    | nil => rfl
    | cons a as => simp [begB] at h
  | cons c r => simp [subB, h]

theorem subB_append_left (a : List Char) {p s : List Char}
    (h : subB p s = true) : subB p (a ++ s) = true := by
  induction a with
  | nil => simpa using h
  | cons c a' ih => simp [subB, ih]

theorem subB_of_middle (a p b : List Char) : subB p (a ++ (p ++ b)) = true :=
  subB_append_left a (subB_of_begB (begB_append p b))

/-! ### Peeling lemmas for token membership in concatenations. -/

theorem mem_splitSp_append_ite (x a r : List Char) (P : Prop) [Decidable P] :
    (x ∈ splitSp (a ++ (if P then ' ' :: r else []))) ↔
      x ∈ splitSp a ∨ (P ∧ x ∈ splitSp r) := by
  by_cases h : P
  · rw [if_pos h, splitSp_append, List.mem_append]
    tauto
  · simp [if_neg h, h]

theorem mem_splitSp_moves (x : List Char) :
    ∀ (a : List Char) (ms : List String),
      (x ∈ splitSp (a ++ movesChars ms) ↔
        x ∈ splitSp a ∨ ∃ m ∈ ms, x ∈ splitSp m.data) := by
  intro a ms
  induction ms generalizing a with
  | nil => simp [movesChars]
  | cons m ms ih =>
    have e : a ++ movesChars (m :: ms) = (a ++ ' ' :: (m.data ++ movesChars ms)) := by
      simp [movesChars]
    rw [e, splitSp_append, List.mem_append, ih m.data]
    simp only [List.mem_cons]
    constructor
    · rintro (h | h | ⟨m', hm', h⟩)
      · exact Or.inl h
      · exact Or.inr ⟨m, Or.inl rfl, h⟩
      · exact Or.inr ⟨m', Or.inr hm', h⟩
    · rintro (h | ⟨m', hm' | hm', h⟩)
      · exact Or.inl h
      · rw [hm'] at h
        exact Or.inr (Or.inl h)
      · exact Or.inr (Or.inr ⟨m', hm', h⟩)

theorem tfSeg_eq (fn : List Char) :
    " trainingfile ".data ++ fn = ' ' :: ("trainingfile".data ++ ' ' :: fn) := by
  have e : (" trainingfile ".data : List Char) = (' ' :: "trainingfile".data) ++ [' '] := by
    decide
  rw [e]
  simp

theorem idSeg_eq (ic : List Char) :
    " gameid ".data ++ ic = ' ' :: ("gameid".data ++ ' ' :: ic) := by
  have e : (" gameid ".data : List Char) = (' ' :: "gameid".data) ++ [' '] := by decide
  rw [e]
  simp

theorem playerSeg_eq (w : List Char) :
    " player1 ".data ++ w = ' ' :: ("player1".data ++ ' ' :: w) := by
  have e : (" player1 ".data : List Char) = (' ' :: "player1".data) ++ [' '] := by decide
  rw [e]
  simp

theorem resultSeg_eq (w : List Char) :
    " result ".data ++ w = ' ' :: ("result".data ++ ' ' :: w) := by
  have e : (" result ".data : List Char) = (' ' :: "result".data) ++ [' '] := by decide
  rw [e]
  simp

theorem movesSeg_eq (t : List Char) :
    " moves".data ++ t = ' ' :: ("moves".data ++ t) := by
  have e : (" moves".data : List Char) = ' ' :: "moves".data := by decide
  rw [e]
  simp

theorem splitSp_resultChars (g : GameResult) :
    splitSp (resultChars g) = [resultChars g] := by
  cases g <;> decide

theorem splitSp_intChars (n : ℤ) : splitSp (intChars n) = [intChars n] :=
  splitSp_no_space intChars_no_space

set_option maxHeartbeats 1000000 in
/-- Characterization of the space-separated tokens of the `gameready` line. -/
theorem mem_tokens_gameReady (info : GameInfo) (x : List Char) :
    x ∈ splitSp (gameReadyChars info) ↔
      x = "gameready".data
      ∨ (info.training_filename.data ≠ [] ∧
          (x = "trainingfile".data ∨ x ∈ splitSp info.training_filename.data))
      ∨ (info.game_id ≠ -1 ∧ (x = "gameid".data ∨ x = intChars info.game_id))
      ∨ (∃ b, info.is_black = some b ∧
          (x = "player1".data ∨ x = (if b then "black".data else "white".data)))
      ∨ (info.game_result ≠ GameResult.UNDECIDED ∧
          (x = "result".data ∨ x = resultChars info.game_result))
      ∨ (info.moves ≠ [] ∧
          (x = "moves".data ∨ ∃ m ∈ info.moves, x ∈ splitSp m.data)) := by
  have hg : splitSp ("gameready".data) = ["gameready".data] := by decide
  have htf : splitSp ("trainingfile".data ++ ' ' :: info.training_filename.data) =
      "trainingfile".data :: splitSp info.training_filename.data := by
    rw [splitSp_append, show splitSp ("trainingfile".data) = ["trainingfile".data]
      from by decide]
    rfl
  have hid : splitSp ("gameid".data ++ ' ' :: intChars info.game_id) =
      ["gameid".data, intChars info.game_id] := by
    rw [splitSp_append, show splitSp ("gameid".data) = ["gameid".data] from by decide,
      splitSp_intChars]
    rfl
  have hres : splitSp ("result".data ++ ' ' :: resultChars info.game_result) =
      ["result".data, resultChars info.game_result] := by
    rw [splitSp_append, show splitSp ("result".data) = ["result".data] from by decide,
      splitSp_resultChars]
    rfl
  have hmv : splitSp ("moves".data) = ["moves".data] := by decide
  have e1 : ("gameready".data : List Char) = ['g','a','m','e','r','e','a','d','y'] := rfl
  have e2 : ("trainingfile".data : List Char) =
    ['t','r','a','i','n','i','n','g','f','i','l','e'] := rfl
  have e3 : ("gameid".data : List Char) = ['g','a','m','e','i','d'] := rfl
  have e4 : ("player1".data : List Char) = ['p','l','a','y','e','r','1'] := rfl
  have e5 : ("black".data : List Char) = ['b','l','a','c','k'] := rfl
  have e6 : ("white".data : List Char) = ['w','h','i','t','e'] := rfl
  have e7 : ("result".data : List Char) = ['r','e','s','u','l','t'] := rfl
  have e8 : ("moves".data : List Char) = ['m','o','v','e','s'] := rfl
  rw [gameReadyChars]
  cases hb : info.is_black with
  | none =>
    simp only [hb]
    rw [List.append_nil, tfSeg_eq, idSeg_eq, resultSeg_eq, movesSeg_eq,
      mem_splitSp_append_ite, mem_splitSp_append_ite, mem_splitSp_append_ite,
      mem_splitSp_append_ite, hg, mem_splitSp_moves, htf, hid, hres, hmv]
    simp only [List.mem_singleton, List.mem_cons, e1, e2, e3, e4, e5, e6, e7, e8]
    tauto
  | some b =>
    simp only [hb]
    have hpl : splitSp ("player1".data ++ ' ' :: (if b then "black".data else "white".data)) =
        ["player1".data, if b then "black".data else "white".data] := by
      cases b <;> decide
    rw [tfSeg_eq, idSeg_eq, playerSeg_eq, resultSeg_eq, movesSeg_eq,
      mem_splitSp_append_ite, mem_splitSp_append_ite, splitSp_append,
      List.mem_append, mem_splitSp_append_ite, mem_splitSp_append_ite, hg,
      mem_splitSp_moves, htf, hid, hres, hmv, hpl]
    simp only [List.mem_singleton, List.mem_cons, Option.some.injEq,
      exists_eq_left', e1, e2, e3, e4, e5, e6, e7, e8]
    tauto

/-- Every `gameready` line begins with the word `gameready`. -/
theorem gameReady_begins (info : GameInfo) :
    begB "gameready".data (gameReadyChars info) = true := by
  rw [gameReadyChars]
  simp only [List.append_assoc]
  exact begB_append _ _

/-- A word containing a character outside `-0123456789` is not the rendering
of an integer. -/
theorem keyword_ne_intChars {w : List Char} {c : Char} (hc : c ∈ w)
    (hno : c ∉ "-0123456789".data) (n : ℤ) : w ≠ intChars n := by
  intro he
  exact hno (mem_intChars n (he ▸ hc))

theorem resultChars_cases (g : GameResult) :
    resultChars g = "draw".data ∨ resultChars g = "whitewon".data ∨
      resultChars g = "blackwon".data := by
  cases g <;> decide

/-- C7: a game-completion event with an empty move sequence and no
resignation-confidence threshold produces exactly one response line; that
line is a `gameready` line, it carries no `moves` token, and (being the only
line emitted) it is not preceded by any `resign_report` line. -/
theorem c7_empty_moves_no_resign (info : GameInfo)
    (hmv : info.moves = [])
    (hth : info.min_false_positive_threshold = none)
    (hfn : "moves".data ∉ splitSp info.training_filename.data) :
    sendGameInfo info = [gameReadyChars info] ∧
    begB "gameready".data (gameReadyChars info) = true ∧
    "moves".data ∉ splitSp (gameReadyChars info) := by
  refine ⟨?_, gameReady_begins info, ?_⟩
  · simp [sendGameInfo, hth]
  · intro hx
    rcases (mem_tokens_gameReady info _).mp hx with h | ⟨h1, h | h⟩ | ⟨h1, h | h⟩ |
      ⟨b, hb, h | h⟩ | ⟨h1, h | h⟩ | ⟨h1, h⟩
    · exact absurd h (by decide)
    · exact absurd h (by decide)
    · exact hfn h
    · exact absurd h (by decide)
    · exact keyword_ne_intChars (c := 'm') (by decide) (by decide) info.game_id h
    · exact absurd h (by decide)
    · exact absurd h (by cases b <;> decide)
    · exact absurd h (by decide)
    · rcases resultChars_cases info.game_result with e | e | e <;> rw [e] at h <;>
        exact absurd h (by decide)
    · exact h1 hmv

/-- Witness for C7 at a concrete event. -/
theorem c7_witness :
    gameEmpty.moves = [] ∧ gameEmpty.min_false_positive_threshold = none ∧
    "moves".data ∉ splitSp gameEmpty.training_filename.data ∧
    (sendGameInfo gameEmpty = [gameReadyChars gameEmpty] ∧
     begB "gameready".data (gameReadyChars gameEmpty) = true ∧
     "moves".data ∉ splitSp (gameReadyChars gameEmpty)) :=
  ⟨rfl, rfl, by decide, c7_empty_moves_no_resign gameEmpty rfl rfl (by decide)⟩

/-- C8: whenever the event carries a resignation-confidence threshold, the
responses are exactly a `resign_report` line containing `fp_threshold`
followed by the threshold, and then the `gameready` line: the report comes
strictly before, never after. -/
theorem c8_resign_precedes_gameready (info : GameInfo) (t : ℚ)
    (h : info.min_false_positive_threshold = some t) :
    sendGameInfo info =
      ["resign_report fp_threshold ".data ++ fmt6Q t, gameReadyChars info] ∧
    subB ("fp_threshold ".data ++ fmt6Q t)
      ("resign_report fp_threshold ".data ++ fmt6Q t) = true ∧
    begB "gameready".data (gameReadyChars info) = true := by
  refine ⟨?_, ?_, gameReady_begins info⟩
  · simp [sendGameInfo, h]
  · have e : ("resign_report fp_threshold ".data : List Char) =
        "resign_report ".data ++ "fp_threshold ".data := by decide
    rw [e, List.append_assoc]
    exact subB_append_left _ (subB_of_begB (begB_self _))

/-- Witness for C8 at a concrete event. -/
theorem c8_witness :
    gameWithThreshold.min_false_positive_threshold = some (1/2) ∧
    (sendGameInfo gameWithThreshold =
      ["resign_report fp_threshold ".data ++ fmt6Q (1/2), gameReadyChars gameWithThreshold] ∧
     subB ("fp_threshold ".data ++ fmt6Q (1/2))
       ("resign_report fp_threshold ".data ++ fmt6Q (1/2)) = true ∧
     begB "gameready".data (gameReadyChars gameWithThreshold) = true) :=
  ⟨rfl, c8_resign_precedes_gameready gameWithThreshold (1/2) rfl⟩

/-- C10: in the `gameready` line, the `trainingfile` token appears iff the
training filename is non-empty, the `gameid` token appears iff the game
identifier differs from `-1`, and the `result` token appears iff the result
is decided; and the line for a game whose identifier equals `-1` coincides
with the line built with no identifier clause at all.  (The move strings and
the filename are assumed not to smuggle in the literal keywords as tokens.) -/
theorem c10_optional_tokens (info : GameInfo)
    (hm : ∀ m ∈ info.moves, "trainingfile".data ∉ splitSp m.data ∧
      "gameid".data ∉ splitSp m.data ∧ "result".data ∉ splitSp m.data)
    (hfn1 : "gameid".data ∉ splitSp info.training_filename.data)
    (hfn2 : "result".data ∉ splitSp info.training_filename.data) :
    ("trainingfile".data ∈ splitSp (gameReadyChars info) ↔
      info.training_filename.data ≠ []) ∧
    ("gameid".data ∈ splitSp (gameReadyChars info) ↔ info.game_id ≠ -1) ∧
    ("result".data ∈ splitSp (gameReadyChars info) ↔
      info.game_result ≠ GameResult.UNDECIDED) ∧
    gameReadyChars { info with game_id := -1 } = gameReadyNoIdChars info := by
  refine ⟨⟨?_, ?_⟩, ⟨?_, ?_⟩, ⟨?_, ?_⟩, ?_⟩
  · intro hx
    rcases (mem_tokens_gameReady info _).mp hx with h | ⟨h1, h | h⟩ | ⟨h1, h | h⟩ |
      ⟨b, hb, h | h⟩ | ⟨h1, h | h⟩ | ⟨h1, h | h⟩
    · exact absurd h (by decide)
    · exact h1
    · exact h1
    · exact absurd h (by decide)
    · exact absurd h (keyword_ne_intChars (c := 't') (by decide) (by decide) info.game_id)
    · exact absurd h (by decide)
    · exact absurd h (by cases b <;> decide)
    · exact absurd h (by decide)
    · rcases resultChars_cases info.game_result with e | e | e <;> rw [e] at h <;>
        exact absurd h (by decide)
    · exact absurd h (by decide)
    · obtain ⟨m, hmem, hsp⟩ := h
      exact absurd hsp (hm m hmem).1
  · intro h1
    exact (mem_tokens_gameReady info _).mpr (Or.inr (Or.inl ⟨h1, Or.inl rfl⟩))
  · intro hx
    rcases (mem_tokens_gameReady info _).mp hx with h | ⟨h1, h | h⟩ | ⟨h1, h | h⟩ |
      ⟨b, hb, h | h⟩ | ⟨h1, h | h⟩ | ⟨h1, h | h⟩
    · exact absurd h (by decide)
    · exact absurd h (by decide)
    · exact absurd h hfn1
    · exact h1
    · exact h1
    · exact absurd h (by decide)
    · exact absurd h (by cases b <;> decide)
    · exact absurd h (by decide)
    · rcases resultChars_cases info.game_result with e | e | e <;> rw [e] at h <;>
        exact absurd h (by decide)
    · exact absurd h (by decide)
    · obtain ⟨m, hmem, hsp⟩ := h
      exact absurd hsp (hm m hmem).2.1
  · intro h1
    exact (mem_tokens_gameReady info _).mpr
      (Or.inr (Or.inr (Or.inl ⟨h1, Or.inl rfl⟩)))
  · intro hx
    rcases (mem_tokens_gameReady info _).mp hx with h | ⟨h1, h | h⟩ | ⟨h1, h | h⟩ |
      ⟨b, hb, h | h⟩ | ⟨h1, h | h⟩ | ⟨h1, h | h⟩
    · exact absurd h (by decide)
    · exact absurd h (by decide)
    · exact absurd h hfn2
    · exact absurd h (by decide)
    · exact absurd h (keyword_ne_intChars (c := 'r') (by decide) (by decide) info.game_id)
    · exact absurd h (by decide)
    · exact absurd h (by cases b <;> decide)
    · exact h1
    · exact h1
    · exact absurd h (by decide)
    · obtain ⟨m, hmem, hsp⟩ := h
      exact absurd hsp (hm m hmem).2.2
  · intro h1
    exact (mem_tokens_gameReady info _).mpr
      (Or.inr (Or.inr (Or.inr (Or.inr (Or.inl ⟨h1, Or.inl rfl⟩)))))
  · simp [gameReadyChars, gameReadyNoIdChars]

/-- Witness for C10 at a concrete event. -/
theorem c10_witness :
    (∀ m ∈ gameSentinelId.moves, "trainingfile".data ∉ splitSp m.data ∧
      "gameid".data ∉ splitSp m.data ∧ "result".data ∉ splitSp m.data) ∧
    "gameid".data ∉ splitSp gameSentinelId.training_filename.data ∧
    "result".data ∉ splitSp gameSentinelId.training_filename.data ∧
    (("trainingfile".data ∈ splitSp (gameReadyChars gameSentinelId) ↔
        gameSentinelId.training_filename.data ≠ []) ∧
     ("gameid".data ∈ splitSp (gameReadyChars gameSentinelId) ↔
        gameSentinelId.game_id ≠ -1) ∧
     ("result".data ∈ splitSp (gameReadyChars gameSentinelId) ↔
        gameSentinelId.game_result ≠ GameResult.UNDECIDED) ∧
     gameReadyChars { gameSentinelId with game_id := -1 } =
        gameReadyNoIdChars gameSentinelId) :=
  ⟨by decide, by decide, by decide,
    c10_optional_tokens gameSentinelId (by decide) (by decide) (by decide)⟩

/-! ### Tokens of the `tournamentstatus` line. -/

theorem finalSeg_eq : (" final".data : List Char) = ' ' :: "final".data := by decide

theorem p1Seg_eq (w l d : List Char) :
    " P1: +".data ++ w ++ " -".data ++ l ++ " =".data ++ d =
      ' ' :: ("P1:".data ++ ' ' :: ('+' :: w ++ ' ' :: ('-' :: l ++ ' ' :: ('=' :: d)))) := by
  have e1 : (" P1: +".data : List Char) = (' ' :: "P1:".data) ++ [' ', '+'] := by decide
  have e2 : (" -".data : List Char) = [' ', '-'] := by decide
  have e3 : (" =".data : List Char) = [' ', '='] := by decide
  rw [e1, e2, e3]
  simp

theorem p1wSeg_eq (w l d : List Char) :
    " P1-W: +".data ++ w ++ " -".data ++ l ++ " =".data ++ d =
      ' ' :: ("P1-W:".data ++ ' ' :: ('+' :: w ++ ' ' :: ('-' :: l ++ ' ' :: ('=' :: d)))) := by
  have e1 : (" P1-W: +".data : List Char) = (' ' :: "P1-W:".data) ++ [' ', '+'] := by decide
  have e2 : (" -".data : List Char) = [' ', '-'] := by decide
  have e3 : (" =".data : List Char) = [' ', '='] := by decide
  rw [e1, e2, e3]
  simp

theorem p1bSeg_eq (w l d : List Char) :
    " P1-B: +".data ++ w ++ " -".data ++ l ++ " =".data ++ d =
      ' ' :: ("P1-B:".data ++ ' ' :: ('+' :: w ++ ' ' :: ('-' :: l ++ ' ' :: ('=' :: d)))) := by
  have e1 : (" P1-B: +".data : List Char) = (' ' :: "P1-B:".data) ++ [' ', '+'] := by decide
  have e2 : (" -".data : List Char) = [' ', '-'] := by decide
  have e3 : (" =".data : List Char) = [' ', '='] := by decide
  rw [e1, e2, e3]
  simp

theorem winSeg_eq (f : List Char) :
    " Win: ".data ++ f ++ "%".data = ' ' :: ("Win:".data ++ ' ' :: (f ++ "%".data)) := by
  have e : (" Win: ".data : List Char) = (' ' :: "Win:".data) ++ [' '] := by decide
  rw [e]
  simp

theorem eloSeg_eq (f : List Char) :
    " Elo: ".data ++ f = ' ' :: ("Elo:".data ++ ' ' :: f) := by
  have e : (" Elo: ".data : List Char) = (' ' :: "Elo:".data) ++ [' '] := by decide
  rw [e]
  simp

theorem losSeg_eq (f : List Char) :
    " LOS: ".data ++ f ++ "%".data = ' ' :: ("LOS:".data ++ ' ' :: (f ++ "%".data)) := by
  have e : (" LOS: ".data : List Char) = (' ' :: "LOS:".data) ++ [' '] := by decide
  rw [e]
  simp

theorem splitSp_scoreBody (hdr : List Char) (hh : ∀ c ∈ hdr, c ≠ ' ') (w l d : ℤ) :
    splitSp (hdr ++ ' ' :: ('+' :: intChars w ++ ' ' ::
        ('-' :: intChars l ++ ' ' :: ('=' :: intChars d)))) =
      [hdr, '+' :: intChars w, '-' :: intChars l, '=' :: intChars d] := by
  have nsp : ∀ (c : Char), c ≠ ' ' → ∀ (n : ℤ), ∀ ch ∈ c :: intChars n, ch ≠ ' ' := by
    intro c hc n ch hch
    rcases List.mem_cons.mp hch with rfl | hch
    · exact hc
    · exact intChars_no_space ch hch
  rw [splitSp_append, splitSp_no_space hh, splitSp_append,
    splitSp_no_space (nsp '+' (by decide) w), splitSp_append,
    splitSp_no_space (nsp '-' (by decide) l), splitSp_no_space (nsp '=' (by decide) d)]
  rfl

theorem splitSp_fmt2_pct (n : ℤ) :
    splitSp (pad5 (hundChars n) ++ "%".data) =
      List.replicate (5 - (hundChars n).length) [] ++ [hundChars n ++ "%".data] := by
  rw [pad5, List.append_assoc, splitSp_replicate_append, splitSp_no_space]
  intro c hc
  rcases List.mem_append.mp hc with hc | hc
  · exact hundChars_no_space c hc
  · rcases List.mem_singleton.mp hc with rfl
    decide

theorem splitSp_fmt2_plain (n : ℤ) :
    splitSp (pad5 (hundChars n)) =
      List.replicate (5 - (hundChars n).length) [] ++ [hundChars n] := by
  rw [pad5, splitSp_replicate_append, splitSp_no_space hundChars_no_space]

theorem mem_splitSp_fmt2_pct {x : List Char} (n : ℤ)
    (h : x ∈ splitSp (pad5 (hundChars n) ++ "%".data)) :
    x = [] ∨ x = hundChars n ++ "%".data := by
  rw [splitSp_fmt2_pct] at h
  rcases List.mem_append.mp h with h | h
  · exact Or.inl (List.eq_of_mem_replicate h)
  · exact Or.inr (List.mem_singleton.mp h)

theorem mem_splitSp_fmt2_plain {x : List Char} (n : ℤ)
    (h : x ∈ splitSp (pad5 (hundChars n))) :
    x = [] ∨ x = hundChars n := by
  rw [splitSp_fmt2_plain] at h
  rcases List.mem_append.mp h with h | h
  · exact Or.inl (List.eq_of_mem_replicate h)
  · exact Or.inr (List.mem_singleton.mp h)

theorem splitSp_append_opt (a r : List Char) (P : Prop) [Decidable P] :
    splitSp (a ++ (if P then ' ' :: r else [])) =
      splitSp a ++ (if P then splitSp r else []) := by
  by_cases h : P
  · rw [if_pos h, if_pos h, splitSp_append]
  · rw [if_neg h, if_neg h, List.append_nil, List.append_nil]

theorem mem_ite_nil {α : Type} (P : Prop) [Decidable P] (L : List α) (x : α) :
    (x ∈ if P then L else []) ↔ P ∧ x ∈ L := by
  by_cases h : P <;> simp [h]

set_option maxHeartbeats 2000000 in
/-- The space-separated tokens of the `tournamentstatus` line. -/
theorem tokens_sendTournament (t : TournamentInfo) :
    splitSp (sendTournamentChars t) =
      ["tournamentstatus".data]
      ++ (if t.finished then ["final".data] else [])
      ++ ["P1:".data, '+' :: intChars (winp1 t), '-' :: intChars (loosep1 t),
          '=' :: intChars (draws t)]
      ++ (if 0 < percentage t then
            "Win:".data :: splitSp (fmt2Q (percentage t * 100) ++ "%".data)
          else [])
      ++ (if elo t < 10000 then "Elo:".data :: splitSp (fmt2R (elo t)) else [])
      ++ (if los t < 10000 then
            "LOS:".data :: splitSp (fmt2R (los t * 100) ++ "%".data)
          else [])
      ++ ["P1-W:".data, '+' :: intChars (t.results 0 0), '-' :: intChars (t.results 2 0),
          '=' :: intChars (t.results 1 0)]
      ++ ["P1-B:".data, '+' :: intChars (t.results 0 1), '-' :: intChars (t.results 2 1),
          '=' :: intChars (t.results 1 1)] := by
  have hts : splitSp ("tournamentstatus".data) = ["tournamentstatus".data] := by decide
  have hfin : splitSp ("final".data) = ["final".data] := by decide
  have hsc1 := splitSp_scoreBody "P1:".data (by decide) (winp1 t) (loosep1 t) (draws t)
  have hsc6 := splitSp_scoreBody "P1-W:".data (by decide)
    (t.results 0 0) (t.results 2 0) (t.results 1 0)
  have hsc7 := splitSp_scoreBody "P1-B:".data (by decide)
    (t.results 0 1) (t.results 2 1) (t.results 1 1)
  have hwin : splitSp ("Win:".data ++ ' ' :: (fmt2Q (percentage t * 100) ++ "%".data)) =
      "Win:".data :: splitSp (fmt2Q (percentage t * 100) ++ "%".data) := by
    rw [splitSp_append, show splitSp ("Win:".data) = ["Win:".data] from by decide]
    rfl
  have helo : splitSp ("Elo:".data ++ ' ' :: fmt2R (elo t)) =
      "Elo:".data :: splitSp (fmt2R (elo t)) := by
    rw [splitSp_append, show splitSp ("Elo:".data) = ["Elo:".data] from by decide]
    rfl
  have hlos : splitSp ("LOS:".data ++ ' ' :: (fmt2R (los t * 100) ++ "%".data)) =
      "LOS:".data :: splitSp (fmt2R (los t * 100) ++ "%".data) := by
    rw [splitSp_append, show splitSp ("LOS:".data) = ["LOS:".data] from by decide]
    rfl
  have hfseg : (if t.finished then " final".data else ([] : List Char)) =
      (if t.finished = true then ' ' :: "final".data else []) := by
    cases t.finished <;> simp [finalSeg_eq]
  rw [sendTournamentChars, hfseg, p1Seg_eq, p1wSeg_eq, p1bSeg_eq, winSeg_eq,
    eloSeg_eq, losSeg_eq, splitSp_append, splitSp_append, splitSp_append_opt,
    splitSp_append_opt, splitSp_append_opt, splitSp_append, splitSp_append_opt,
    hts, hfin, hsc1, hsc6, hsc7, hwin, helo, hlos]

set_option maxHeartbeats 2000000 in
set_option maxRecDepth 8000 in
/-- Characterization of the space-separated tokens of the `tournamentstatus`
line. -/
theorem mem_tokens_sendTournament (t : TournamentInfo) (x : List Char) :
    x ∈ splitSp (sendTournamentChars t) ↔
      x = "tournamentstatus".data
      ∨ (t.finished = true ∧ x = "final".data)
      ∨ x = "P1:".data ∨ x = '+' :: intChars (winp1 t)
      ∨ x = '-' :: intChars (loosep1 t) ∨ x = '=' :: intChars (draws t)
      ∨ (0 < percentage t ∧ (x = "Win:".data ∨
          x ∈ splitSp (fmt2Q (percentage t * 100) ++ "%".data)))
      ∨ (elo t < 10000 ∧ (x = "Elo:".data ∨ x ∈ splitSp (fmt2R (elo t))))
      ∨ (los t < 10000 ∧ (x = "LOS:".data ∨
          x ∈ splitSp (fmt2R (los t * 100) ++ "%".data)))
      ∨ x = "P1-W:".data ∨ x = '+' :: intChars (t.results 0 0)
      ∨ x = '-' :: intChars (t.results 2 0) ∨ x = '=' :: intChars (t.results 1 0)
      ∨ x = "P1-B:".data ∨ x = '+' :: intChars (t.results 0 1)
      ∨ x = '-' :: intChars (t.results 2 1) ∨ x = '=' :: intChars (t.results 1 1) := by
  rw [tokens_sendTournament]
  simp only [List.mem_append, List.mem_cons, List.mem_singleton, mem_ite_nil,
    List.not_mem_nil, or_false, false_or, or_assoc, and_or_left]

theorem keyword_ne_cons {c d : Char} {l m : List Char} (h : c ≠ d) :
    c :: l ≠ d :: m := by
  intro he
  injection he with h1 _
  exact h h1

theorem keyword_ne_hund {w : List Char} {c : Char} (hc : c ∈ w)
    (h1 : c ∉ "-.0123456789".data) {tail : List Char} (h2 : c ∉ tail) (n : ℤ) :
    w ≠ hundChars n ++ tail := by
  intro he
  rcases List.mem_append.mp (he ▸ hc) with h | h
  · exact h1 (mem_hundChars n h)
  · exact h2 h

theorem keyword_ne_hund' {w : List Char} {c : Char} (hc : c ∈ w)
    (h1 : c ∉ "-.0123456789".data) (n : ℤ) : w ≠ hundChars n := by
  intro he
  exact h1 (mem_hundChars n (he ▸ hc))

/-- The `Win:` field is present iff the computed percentage is positive (the
code's emission guard). -/
theorem winFieldPresent_iff (t : TournamentInfo) :
    winFieldPresent t ↔ 0 < percentage t := by
  rw [winFieldPresent, mem_tokens_sendTournament]
  constructor
  · rintro (h | ⟨_, h⟩ | h | h | h | h | ⟨hp, _⟩ | ⟨_, h | h⟩ | ⟨_, h | h⟩ |
      h | h | h | h | h | h | h | h)
    · exact absurd h (by decide)
    · exact absurd h (by decide)
    · exact absurd h (by decide)
    · exact absurd h (keyword_ne_cons (by decide))
    · exact absurd h (keyword_ne_cons (by decide))
    · exact absurd h (keyword_ne_cons (by decide))
    · exact hp
    · exact absurd h (by decide)
    · rcases mem_splitSp_fmt2_plain _ h with h' | h'
      · exact absurd h' (by decide)
      · exact absurd h' (keyword_ne_hund' (c := 'W') (by decide) (by decide) _)
    · exact absurd h (by decide)
    · rcases mem_splitSp_fmt2_pct _ h with h' | h'
      · exact absurd h' (by decide)
      · exact absurd h' (keyword_ne_hund (c := 'W') (by decide) (by decide) (by decide) _)
    · exact absurd h (by decide)
    · exact absurd h (keyword_ne_cons (by decide))
    · exact absurd h (keyword_ne_cons (by decide))
    · exact absurd h (keyword_ne_cons (by decide))
    · exact absurd h (by decide)
    · exact absurd h (keyword_ne_cons (by decide))
    · exact absurd h (keyword_ne_cons (by decide))
    · exact absurd h (keyword_ne_cons (by decide))
  · intro hp
    exact Or.inr (Or.inr (Or.inr (Or.inr (Or.inr (Or.inr (Or.inl ⟨hp, Or.inl rfl⟩))))))

/-- The `Elo:` field is present iff the computed elo cleared the `10000`
sentinel (the code's emission guard). -/
theorem eloFieldPresent_iff (t : TournamentInfo) :
    eloFieldPresent t ↔ elo t < 10000 := by
  rw [eloFieldPresent, mem_tokens_sendTournament]
  constructor
  · rintro (h | ⟨_, h⟩ | h | h | h | h | ⟨_, h | h⟩ | ⟨he, _⟩ | ⟨_, h | h⟩ |
      h | h | h | h | h | h | h | h)
    · exact absurd h (by decide)
    · exact absurd h (by decide)
    · exact absurd h (by decide)
    · exact absurd h (keyword_ne_cons (by decide))
    · exact absurd h (keyword_ne_cons (by decide))
    · exact absurd h (keyword_ne_cons (by decide))
    · exact absurd h (by decide)
    · rcases mem_splitSp_fmt2_pct _ h with h' | h'
      · exact absurd h' (by decide)
      · exact absurd h' (keyword_ne_hund (c := 'E') (by decide) (by decide) (by decide) _)
    · exact he
    · exact absurd h (by decide)
    · rcases mem_splitSp_fmt2_pct _ h with h' | h'
      · exact absurd h' (by decide)
      · exact absurd h' (keyword_ne_hund (c := 'E') (by decide) (by decide) (by decide) _)
    · exact absurd h (by decide)
    · exact absurd h (keyword_ne_cons (by decide))
    · exact absurd h (keyword_ne_cons (by decide))
    · exact absurd h (keyword_ne_cons (by decide))
    · exact absurd h (by decide)
    · exact absurd h (keyword_ne_cons (by decide))
    · exact absurd h (keyword_ne_cons (by decide))
    · exact absurd h (keyword_ne_cons (by decide))
  · intro he
    exact Or.inr (Or.inr (Or.inr (Or.inr (Or.inr (Or.inr (Or.inr (Or.inl
      ⟨he, Or.inl rfl⟩)))))))

/-- The `LOS:` field is present iff the computed los cleared the `10000`
sentinel (the code's emission guard). -/
theorem losFieldPresent_iff (t : TournamentInfo) :
    losFieldPresent t ↔ los t < 10000 := by
  rw [losFieldPresent, mem_tokens_sendTournament]
  constructor
  · rintro (h | ⟨_, h⟩ | h | h | h | h | ⟨_, h | h⟩ | ⟨_, h | h⟩ | ⟨hl, _⟩ |
      h | h | h | h | h | h | h | h)
    · exact absurd h (by decide)
    · exact absurd h (by decide)
    · exact absurd h (by decide)
    · exact absurd h (keyword_ne_cons (by decide))
    · exact absurd h (keyword_ne_cons (by decide))
    · exact absurd h (keyword_ne_cons (by decide))
    · exact absurd h (by decide)
    · rcases mem_splitSp_fmt2_pct _ h with h' | h'
      · exact absurd h' (by decide)
      · exact absurd h' (keyword_ne_hund (c := 'L') (by decide) (by decide) (by decide) _)
    · exact absurd h (by decide)
    · rcases mem_splitSp_fmt2_plain _ h with h' | h'
      · exact absurd h' (by decide)
      · exact absurd h' (keyword_ne_hund' (c := 'L') (by decide) (by decide) _)
    · exact hl
    · exact absurd h (by decide)
    · exact absurd h (keyword_ne_cons (by decide))
    · exact absurd h (keyword_ne_cons (by decide))
    · exact absurd h (keyword_ne_cons (by decide))
    · exact absurd h (by decide)
    · exact absurd h (keyword_ne_cons (by decide))
    · exact absurd h (keyword_ne_cons (by decide))
    · exact absurd h (keyword_ne_cons (by decide))
  · intro hl
    exact Or.inr (Or.inr (Or.inr (Or.inr (Or.inr (Or.inr (Or.inr (Or.inr (Or.inl
      ⟨hl, Or.inl rfl⟩))))))))

/-! ### Analytic facts about the statistics. -/

theorem gaussExp_continuous : Continuous fun u : ℝ => Real.exp (-(u ^ 2)) :=
  Real.continuous_exp.comp (continuous_pow 2).neg

theorem gaussInt_nonneg {a b : ℝ} (h : a ≤ b) :
    0 ≤ ∫ u in a..b, Real.exp (-(u ^ 2)) :=
  intervalIntegral.integral_nonneg h fun u _ => (Real.exp_pos _).le

theorem gaussInt_le_two (x : ℝ) : (∫ u in (0:ℝ)..x, Real.exp (-(u ^ 2))) ≤ 2 := by
  have hint : ∀ a b : ℝ,
      IntervalIntegrable (fun u => Real.exp (-(u ^ 2))) MeasureTheory.volume a b :=
    fun a b => gaussExp_continuous.intervalIntegrable a b
  have hup : ∀ a b : ℝ, a ≤ b →
      (∫ u in a..b, Real.exp (-(u ^ 2))) ≤ b - a := by
    intro a b hab
    have hb : (∫ u in a..b, Real.exp (-(u ^ 2))) ≤ ∫ _u in a..b, (1:ℝ) := by
      apply intervalIntegral.integral_mono_on hab (hint a b) intervalIntegrable_const
      intro u _
      rw [Real.exp_le_one_iff]
      nlinarith [sq_nonneg u]
    rwa [intervalIntegral.integral_const, smul_eq_mul, mul_one] at hb
  rcases le_or_lt x 0 with hx | hx
  · have hsym : (∫ u in (0:ℝ)..x, Real.exp (-(u ^ 2))) =
        -(∫ u in x..(0:ℝ), Real.exp (-(u ^ 2))) := by
      rw [intervalIntegral.integral_symm]
    rw [hsym]
    have h2 := gaussInt_nonneg (a := x) (b := 0) hx
    linarith
  · rcases le_or_lt x 1 with hx1 | hx1
    · have := hup 0 x hx.le
      linarith
    · have hsplit : (∫ u in (0:ℝ)..1, Real.exp (-(u ^ 2))) +
          (∫ u in (1:ℝ)..x, Real.exp (-(u ^ 2))) =
          ∫ u in (0:ℝ)..x, Real.exp (-(u ^ 2)) :=
        intervalIntegral.integral_add_adjacent_intervals (hint 0 1) (hint 1 x)
      have h1 : (∫ u in (0:ℝ)..1, Real.exp (-(u ^ 2))) ≤ 1 := by
        have := hup 0 1 (by norm_num)
        linarith
      have h2 : (∫ u in (1:ℝ)..x, Real.exp (-(u ^ 2))) ≤ 1 := by
        have hmono : (∫ u in (1:ℝ)..x, Real.exp (-(u ^ 2))) ≤
            ∫ u in (1:ℝ)..x, Real.exp (-u) := by
          apply intervalIntegral.integral_mono_on hx1.le (hint 1 x)
            ((Real.continuous_exp.comp continuous_neg).intervalIntegrable 1 x)
          intro u hu
          show Real.exp (-(u ^ 2)) ≤ Real.exp (-u)
          apply Real.exp_le_exp.mpr
          nlinarith [hu.1]
        have heval : (∫ u in (1:ℝ)..x, Real.exp (-u)) =
            -Real.exp (-x) - -Real.exp (-1) := by
          have hder : ∀ u ∈ Set.uIcc (1:ℝ) x,
              HasDerivAt (fun v => -Real.exp (-v)) (Real.exp (-u)) u := by
            intro u _
            have h := ((Real.hasDerivAt_exp (-u)).comp u (hasDerivAt_neg u)).neg
            simpa using h
          exact intervalIntegral.integral_eq_sub_of_hasDerivAt hder
            ((Real.continuous_exp.comp continuous_neg).intervalIntegrable 1 x)
        rw [heval] at hmono
        have he1 : Real.exp (-1) ≤ 1 := Real.exp_le_one_iff.mpr (by norm_num)
        have he2 := Real.exp_pos (-x)
        linarith
      linarith

theorem sqrt_pi_gt_one : 1 < Real.sqrt Real.pi := by
  have h1 : (1:ℝ) = Real.sqrt 1 := by rw [Real.sqrt_one]
  rw [h1]
  exact Real.sqrt_lt_sqrt (by norm_num) (by linarith [Real.pi_gt_three])

theorem erf_le_four (x : ℝ) : erf x ≤ 4 := by
  rw [erf]
  have hI := gaussInt_le_two x
  have h0 : 0 < Real.sqrt Real.pi := by linarith [sqrt_pi_gt_one]
  have hc : 2 / Real.sqrt Real.pi ≤ 2 := by
    rw [div_le_iff h0]
    nlinarith [sqrt_pi_gt_one]
  have hc0 : 0 < 2 / Real.sqrt Real.pi := by positivity
  calc 2 / Real.sqrt Real.pi * (∫ u in (0:ℝ)..x, Real.exp (-(u ^ 2)))
      ≤ 2 / Real.sqrt Real.pi * 2 := mul_le_mul_of_nonneg_left hI hc0.le
    _ ≤ 4 := by nlinarith

theorem los_lt_iff (t : TournamentInfo) :
    los t < 10000 ↔ 0 < winp1 t + loosep1 t := by
  rw [los]
  by_cases h : 0 < winp1 t + loosep1 t
  · rw [if_pos h]
    refine ⟨fun _ => h, fun _ => ?_⟩
    have := erf_le_four (((winp1 t : ℝ) - (loosep1 t : ℝ)) /
      Real.sqrt (2 * ((winp1 t : ℝ) + (loosep1 t : ℝ))))
    linarith
  · rw [if_neg h]
    refine ⟨fun hlt => ?_, fun hc => absurd hc h⟩
    norm_num at hlt

/-- C4: for a tournament-status event whose tally is all zeros, the status
line contains none of the `Win:`, `Elo:`, `LOS:` fields. -/
theorem c4_zero_tally_no_fields :
    ¬ winFieldPresent infoZero ∧ ¬ eloFieldPresent infoZero ∧
      ¬ losFieldPresent infoZero := by
  have hwz : winp1 infoZero = 0 := by decide
  have hlz : loosep1 infoZero = 0 := by decide
  have hdz : draws infoZero = 0 := by decide
  have hp : percentage infoZero = -1 := by
    rw [percentage, hwz, hlz, hdz]
    norm_num
  have hcond : ¬ (percentage infoZero < 1 ∧ 0 < percentage infoZero) := by
    rw [hp]; norm_num
  have he : elo infoZero = 10000 := by rw [elo, if_neg hcond]
  have hlcond : ¬ (0 < winp1 infoZero + loosep1 infoZero) := by
    rw [hwz, hlz]; norm_num
  have hl : los infoZero = 10000 := by rw [los, if_neg hlcond]
  refine ⟨?_, ?_, ?_⟩
  · rw [winFieldPresent_iff, hp]; norm_num
  · rw [eloFieldPresent_iff, he]; norm_num
  · rw [losFieldPresent_iff, hl]; norm_num

theorem expPartial_zero (m : ℕ) : expPartial (m + 1) 0 = 1 := by
  rw [expPartial, Finset.sum_eq_single 0]
  · norm_num
  · intro b _ hb
    rw [neg_zero, zero_pow hb, zero_div]
  · intro h
    exact absurd (Finset.mem_range.mpr (Nat.succ_pos m)) h

theorem hasDerivAt_expPartial (m : ℕ) (u : ℝ) :
    HasDerivAt (fun v => expPartial (m + 1) v) (-expPartial m u) u := by
  have hterm : ∀ n : ℕ, HasDerivAt (fun v : ℝ => (-v) ^ n / (n.factorial : ℝ))
      ((n : ℝ) * (-u) ^ (n - 1) * (-1) / (n.factorial : ℝ)) u := by
    intro n
    have h1 : HasDerivAt (fun v : ℝ => -v) (-1) u := hasDerivAt_neg' u
    have h2 := (hasDerivAt_pow n (-u)).comp u h1
    exact h2.div_const _
  have hsum := HasDerivAt.sum (fun i (_ : i ∈ Finset.range (m + 1)) => hterm i)
  have heq : (∑ n ∈ Finset.range (m + 1),
      (n : ℝ) * (-u) ^ (n - 1) * (-1) / (n.factorial : ℝ)) = -expPartial m u := by
    rw [Finset.sum_range_succ']
    have hstep : ∀ i : ℕ,
        (((i + 1 : ℕ)) : ℝ) * (-u) ^ ((i + 1) - 1) * (-1) / (((i + 1).factorial : ℝ)) =
          -((-u) ^ i / (i.factorial : ℝ)) := by
      intro i
      rw [Nat.factorial_succ, Nat.add_sub_cancel]
      have hne : ((i.factorial : ℝ)) ≠ 0 := by positivity
      have hne2 : ((i : ℝ) + 1) ≠ 0 := by positivity
      push_cast
      field_simp
      ring
    rw [Finset.sum_congr rfl (fun i _ => hstep i)]
    rw [expPartial]
    simp [Finset.sum_neg_distrib]
  rw [← heq]
  exact hsum

theorem exp_neg_bound : ∀ (m : ℕ) (u : ℝ), 0 ≤ u →
    0 ≤ (-1) ^ m * (Real.exp (-u) - expPartial m u) := by
  intro m
  induction m with
  | zero =>
    intro u _
    simp [expPartial, (Real.exp_pos (-u)).le]
  | succ m ih =>
    intro u hu
    have hcont : Continuous fun w : ℝ => expPartial (m + 1) w := by
      unfold expPartial
      exact continuous_finset_sum _ fun i _ => (continuous_neg.pow i).div_const _
    have hg : ∀ v : ℝ, HasDerivAt
        (fun w => (-1) ^ (m + 1) * (Real.exp (-w) - expPartial (m + 1) w))
        ((-1) ^ m * (Real.exp (-v) - expPartial m v)) v := by
      intro v
      have hexp : HasDerivAt (fun w : ℝ => Real.exp (-w)) (-Real.exp (-v)) v := by
        have h := (Real.hasDerivAt_exp (-v)).comp v (hasDerivAt_neg' v)
        simpa using h
      have hsub := hexp.sub (hasDerivAt_expPartial m v)
      have hmul := hsub.const_mul ((-1 : ℝ) ^ (m + 1))
      convert hmul using 1
      rw [pow_succ]
      ring
    have hmono : MonotoneOn
        (fun w => (-1) ^ (m + 1) * (Real.exp (-w) - expPartial (m + 1) w))
        (Set.Ici 0) := by
      apply monotoneOn_of_deriv_nonneg (convex_Ici 0)
      · exact (continuous_const.mul
          ((Real.continuous_exp.comp continuous_neg).sub hcont)).continuousOn
      · intro v _
        exact ((hg v).differentiableAt).differentiableWithinAt
      · intro v hv
        rw [(hg v).deriv]
        rw [interior_Ici] at hv
        exact ih v (le_of_lt hv)
    have h0 : (-1 : ℝ) ^ (m + 1) * (Real.exp (-(0:ℝ)) - expPartial (m + 1) 0) = 0 := by
      rw [expPartial_zero, neg_zero, Real.exp_zero]
      ring
    have hle := hmono (Set.mem_Ici.mpr le_rfl) (Set.mem_Ici.mpr hu) hu
    simp only at hle
    rw [h0] at hle
    exact hle

theorem expPartial_sq_continuous (m : ℕ) : Continuous fun t : ℝ => expPartial m (t ^ 2) := by
  unfold expPartial
  exact continuous_finset_sum _ fun i _ => (((continuous_pow 2).neg).pow i).div_const _

theorem integral_expPartial (m : ℕ) (q : ℝ) :
    (∫ t in (0:ℝ)..q, expPartial m (t ^ 2)) = erfPartial m q := by
  unfold expPartial erfPartial
  rw [intervalIntegral.integral_finset_sum]
  · apply Finset.sum_congr rfl
    intro n _
    have e : Set.EqOn (fun t : ℝ => (-(t ^ 2)) ^ n / (n.factorial : ℝ))
        (fun t : ℝ => ((-1) ^ n / (n.factorial : ℝ)) * t ^ (2 * n)) (Set.uIcc 0 q) := by
      intro t _
      simp only
      rw [neg_pow, ← pow_mul]
      ring
    rw [intervalIntegral.integral_congr e, intervalIntegral.integral_const_mul,
      integral_pow]
    rw [zero_pow (by omega : 2 * n + 1 ≠ 0)]
    have h1 : ((n.factorial : ℝ)) ≠ 0 := by positivity
    have h2 : (2 * (n : ℝ) + 1) ≠ 0 := by positivity
    push_cast
    field_simp
  · intro i _
    exact ((((continuous_pow 2).neg).pow i).div_const _).intervalIntegrable _ _

theorem sqrt10_lb : (3.1622776 : ℝ) < Real.sqrt 10 := by
  rw [Real.lt_sqrt (by norm_num)]
  norm_num

theorem sqrt10_ub : Real.sqrt 10 < 3.1622777 := by
  rw [Real.sqrt_lt' (by norm_num)]
  norm_num

theorem sqrtpi_lb : (1.7724536 : ℝ) < Real.sqrt Real.pi := by
  rw [Real.lt_sqrt (by norm_num)]
  nlinarith [Real.pi_gt_d6]

theorem sqrtpi_ub : Real.sqrt Real.pi < 1.772454 := by
  rw [Real.sqrt_lt' (by norm_num)]
  nlinarith [Real.pi_lt_d6]

theorem x_lb : (1.581138 : ℝ) ≤ 5 / Real.sqrt 10 := by
  rw [le_div_iff (by positivity)]
  nlinarith [sqrt10_ub]

theorem x_ub : (5 : ℝ) / Real.sqrt 10 ≤ 1.581139 := by
  rw [div_le_iff (by positivity)]
  nlinarith [sqrt10_lb]



theorem gaussInt_le_erfPartial {m : ℕ} (hm : Odd m) {q : ℝ} (hq : 0 ≤ q) :
    (∫ t in (0:ℝ)..q, Real.exp (-(t ^ 2))) ≤ erfPartial m q := by
  rw [← integral_expPartial]
  apply intervalIntegral.integral_mono_on hq (gaussExp_continuous.intervalIntegrable 0 q)
    ((expPartial_sq_continuous m).intervalIntegrable 0 q)
  intro t _
  have hb := exp_neg_bound m (t ^ 2) (sq_nonneg t)
  rw [hm.neg_one_pow] at hb
  linarith

theorem erfPartial_le_gaussInt {m : ℕ} (hm : Even m) {q : ℝ} (hq : 0 ≤ q) :
    erfPartial m q ≤ ∫ t in (0:ℝ)..q, Real.exp (-(t ^ 2)) := by
  rw [← integral_expPartial]
  apply intervalIntegral.integral_mono_on hq
    ((expPartial_sq_continuous m).intervalIntegrable 0 q)
    (gaussExp_continuous.intervalIntegrable 0 q)
  intro t _
  have hb := exp_neg_bound m (t ^ 2) (sq_nonneg t)
  rw [hm.neg_one_pow] at hb
  linarith

theorem gaussInt_mono {a b : ℝ} (h : a ≤ b) :
    (∫ t in (0:ℝ)..a, Real.exp (-(t ^ 2))) ≤ ∫ t in (0:ℝ)..b, Real.exp (-(t ^ 2)) := by
  have hadd : (∫ t in (0:ℝ)..a, Real.exp (-(t ^ 2))) + (∫ t in a..b, Real.exp (-(t ^ 2))) =
      ∫ t in (0:ℝ)..b, Real.exp (-(t ^ 2)) :=
    intervalIntegral.integral_add_adjacent_intervals
      (gaussExp_continuous.intervalIntegrable 0 a) (gaussExp_continuous.intervalIntegrable a b)
  have hpos := gaussInt_nonneg h
  linarith

set_option maxHeartbeats 4000000 in
theorem erfPartial_12_lb : (0.863756 : ℝ) ≤ erfPartial 12 1.581138 := by
  rw [erfPartial]
  simp only [Finset.sum_range_succ, Finset.sum_range_zero, Nat.factorial]
  norm_num

set_option maxHeartbeats 4000000 in
theorem erfPartial_13_ub : erfPartial 13 1.581139 ≤ (0.863765 : ℝ) := by
  rw [erfPartial]
  simp only [Finset.sum_range_succ, Finset.sum_range_zero, Nat.factorial]
  norm_num

theorem erf_win5_lb : (0.9745 : ℝ) ≤ erf (5 / Real.sqrt 10) := by
  rw [erf]
  have hI1 : (0.863756 : ℝ) ≤ ∫ t in (0:ℝ)..(5 / Real.sqrt 10), Real.exp (-(t ^ 2)) := by
    have h1 : erfPartial 12 1.581138 ≤ ∫ t in (0:ℝ)..(1.581138:ℝ), Real.exp (-(t ^ 2)) :=
      erfPartial_le_gaussInt (m := 12) (by decide) (by norm_num)
    have h2 : (∫ t in (0:ℝ)..(1.581138:ℝ), Real.exp (-(t ^ 2))) ≤
        ∫ t in (0:ℝ)..(5 / Real.sqrt 10), Real.exp (-(t ^ 2)) := gaussInt_mono x_lb
    linarith [erfPartial_12_lb]
  have hpi : (0 : ℝ) < Real.sqrt Real.pi := by positivity
  rw [div_mul_eq_mul_div, le_div_iff hpi]
  nlinarith [sqrtpi_ub, hI1]

theorem erf_win5_ub : erf (5 / Real.sqrt 10) < 0.9747 := by
  rw [erf]
  have hI2 : (∫ t in (0:ℝ)..(5 / Real.sqrt 10), Real.exp (-(t ^ 2))) ≤ 0.863765 := by
    have h1 : (∫ t in (0:ℝ)..(5 / Real.sqrt 10), Real.exp (-(t ^ 2))) ≤
        ∫ t in (0:ℝ)..(1.581139:ℝ), Real.exp (-(t ^ 2)) := gaussInt_mono x_ub
    have h2 : (∫ t in (0:ℝ)..(1.581139:ℝ), Real.exp (-(t ^ 2))) ≤ erfPartial 13 1.581139 :=
      gaussInt_le_erfPartial (m := 13) (by decide) (by norm_num)
    linarith [erfPartial_13_ub]
  have hpi : (0 : ℝ) < Real.sqrt Real.pi := by positivity
  rw [div_mul_eq_mul_div, div_lt_iff hpi]
  nlinarith [sqrtpi_lb, hI2, gaussInt_nonneg (show (0:ℝ) ≤ 5 / Real.sqrt 10 by positivity)]

theorem winp1_infoWin5 : winp1 infoWin5 = 5 := by decide

theorem loosep1_infoWin5 : loosep1 infoWin5 = 0 := by decide

theorem draws_infoWin5 : draws infoWin5 = 0 := by decide

theorem percentage_infoWin5 : percentage infoWin5 = 1 := by
  rw [percentage, winp1_infoWin5, loosep1_infoWin5, draws_infoWin5]
  norm_num

theorem elo_infoWin5 : elo infoWin5 = 10000 := by
  rw [elo, if_neg (show ¬ (percentage infoWin5 < 1 ∧ 0 < percentage infoWin5) from by
    rw [percentage_infoWin5]; norm_num)]

theorem los_infoWin5 : los infoWin5 = 1/2 + 1/2 * erf (5 / Real.sqrt 10) := by
  rw [los, if_pos (show 0 < winp1 infoWin5 + loosep1 infoWin5 from by decide),
    winp1_infoWin5, loosep1_infoWin5]
  have e : (((5:ℤ) : ℝ) - ((0:ℤ) : ℝ)) / Real.sqrt (2 * (((5:ℤ) : ℝ) + ((0:ℤ) : ℝ))) =
      5 / Real.sqrt 10 := by
    push_cast
    norm_num
  rw [e]

theorem losRound_infoWin5 : ⌊los infoWin5 * 100 * 100 + 1/2⌋ = (9873 : ℤ) := by
  have h1 := erf_win5_lb
  have h2 := erf_win5_ub
  rw [los_infoWin5, Int.floor_eq_iff]
  constructor
  · push_cast
    nlinarith
  · push_cast
    nlinarith

theorem sendTournament_infoWin5 :
    sendTournamentChars infoWin5 =
      ("tournamentstatus P1: +5 -0 =0 Win: 100.00%" ++
        " LOS: 98.73% P1-W: +5 -0 =0 P1-B: +0 -0 =0").data := by
  have hf2q : fmt2Q (percentage infoWin5 * 100) = "100.00".data := by
    rw [percentage_infoWin5, show (1:ℚ) * 100 = 100 from by norm_num, fmt2Q,
      show ⌊(100:ℚ) * 100 + 1/2⌋ = 10000 from by rw [Int.floor_eq_iff] <;> norm_num]
    decide
  have hf2rl : fmt2R (los infoWin5 * 100) = "98.73".data := by
    rw [fmt2R, losRound_infoWin5]
    decide
  rw [sendTournamentChars,
    if_pos (show 0 < percentage infoWin5 from by rw [percentage_infoWin5]; norm_num),
    if_neg (show ¬ elo infoWin5 < 10000 from by rw [elo_infoWin5]; norm_num),
    if_pos (show los infoWin5 < 10000 from by
      rw [los_infoWin5]; linarith [erf_le_four (5 / Real.sqrt 10)]),
    hf2q, hf2rl, winp1_infoWin5, loosep1_infoWin5, draws_infoWin5,
    if_neg (show ¬ infoWin5.finished = true from by decide),
    show infoWin5.results 0 0 = 5 from by decide,
    show infoWin5.results 2 0 = 0 from by decide,
    show infoWin5.results 1 0 = 0 from by decide,
    show infoWin5.results 0 1 = 0 from by decide,
    show infoWin5.results 2 1 = 0 from by decide,
    show infoWin5.results 1 1 = 0 from by decide]
  decide

/-- C5 as stated fails on the code: for win = 5, loss = 0, draw = 0 the value
`0.5 + 0.5 * erf(5 / sqrt 10)` is about 0.9873, so the LOS field renders as
`98.73%`; the claimed text `LOS: 99.36%` does not occur in the line. -/
theorem c5_counterexample :
    subB "LOS: 99.36%".data (sendTournamentChars infoWin5) = false := by
  rw [sendTournament_infoWin5]
  decide

/-- C5 amended: for win = 5, loss = 0, draw = 0 the score fraction is exactly
1, so the Elo field is absent (the p = 1 boundary is excluded); the LOS field
is present and equals `0.5 + 0.5 * erf(5 / sqrt 10)` (about 0.9873, not
0.9936), rendered as the two-decimal percentage `"98.73%"`. -/
theorem c5_amended_rendering :
    percentage infoWin5 = 1 ∧
    ¬ eloFieldPresent infoWin5 ∧
    losFieldPresent infoWin5 ∧
    los infoWin5 = 1/2 + 1/2 * erf (5 / Real.sqrt 10) ∧
    subB "LOS: 98.73%".data (sendTournamentChars infoWin5) = true := by
  refine ⟨percentage_infoWin5, ?_, ?_, los_infoWin5, ?_⟩
  · rw [eloFieldPresent_iff, elo_infoWin5]
    norm_num
  · rw [losFieldPresent_iff, los_lt_iff]
    decide
  · rw [sendTournament_infoWin5]
    decide

/-- C2: invoking `start` while a tournament handle already exists returns
without touching the orchestrator state (no second handle, no second thread,
no allocation), so starting twice in succession equals starting once and at
most one handle is ever held (the handle field is a single `Option`). -/
theorem c2_start_idempotent :
    (∀ s : LoopState, s.tournament_.isSome → CmdStart s = s) ∧
    (∀ s : LoopState, CmdStart (CmdStart s) = CmdStart s) := by
  constructor
  · intro s h
    rw [CmdStart, if_pos h]
  · intro s
    by_cases h : s.tournament_.isSome <;> simp [CmdStart, h]

/-- Witness for C2 at a concrete running state. -/
theorem c2_witness :
    stateRunning.tournament_.isSome = true ∧
    CmdStart stateRunning = stateRunning ∧
    CmdStart (CmdStart stateRunning) = CmdStart stateRunning :=
  ⟨rfl, c2_start_idempotent.1 stateRunning rfl, c2_start_idempotent.2 stateRunning⟩

/-- C3: when the orchestrator is destroyed while a tournament handle (and its
background thread) is active, the destructor performs exactly an abort
followed by a join, in that order; after the destructor's steps the
background context has been signalled and is no longer running. -/
theorem c3_destructor_aborts_then_joins (s : LoopState) (b : BgContext)
    (ht : s.tournament_.isSome) (hth : s.thread_.isSome) :
    destructorSteps s = [DtorStep.abortTournament, DtorStep.joinThread] ∧
    (runDestructor s b).running = false ∧
    (runDestructor s b).aborted = true := by
  have e : destructorSteps s = [DtorStep.abortTournament, DtorStep.joinThread] := by
    rw [destructorSteps, if_pos ht, if_pos hth]
    rfl
  refine ⟨e, ?_, ?_⟩ <;> rw [runDestructor, e] <;> rfl

/-- Witness for C3 at a concrete running state. -/
theorem c3_witness :
    stateRunning.tournament_.isSome = true ∧ stateRunning.thread_.isSome = true ∧
    (destructorSteps stateRunning = [DtorStep.abortTournament, DtorStep.joinThread] ∧
     (runDestructor stateRunning bgRunning).running = false ∧
     (runDestructor stateRunning bgRunning).aborted = true) :=
  ⟨rfl, rfl, c3_destructor_aborts_then_joins stateRunning bgRunning rfl rfl⟩

/-- C9: the paired root / non-root accessors are pure reads: any sequence of
accessor calls leaves the registry unchanged, and a read with the root flag
set always returns the root-configured cached value while a read with the
flag clear always returns the non-root cached value, whatever reads came
before. -/
theorem c9_paired_accessors_pure (p : SearchParams) (rs : List ParamRead) :
    readSeq p rs = p ∧
    GetCcon (readSeq p rs) true = p.kCconAtRoot ∧
    GetCcon (readSeq p rs) false = p.kCcon ∧
    GetCpen (readSeq p rs) true = p.kCpenAtRoot ∧
    GetCpen (readSeq p rs) false = p.kCpen ∧
    GetCatt (readSeq p rs) true = p.kCattAtRoot ∧
    GetCatt (readSeq p rs) false = p.kCatt ∧
    GetFpuAbsolute (readSeq p rs) true = p.kFpuAbsoluteAtRoot ∧
    GetFpuAbsolute (readSeq p rs) false = p.kFpuAbsolute ∧
    GetFpuValue (readSeq p rs) true = p.kFpuValueAtRoot ∧
    GetFpuValue (readSeq p rs) false = p.kFpuValue := by
  have hs : readSeq p rs = p := by
    induction rs with
    | nil => rfl
    | cons r rs ih =>
      have h2 : (readParam p r).2 = p := by cases r <;> rfl
      show List.foldl _ ((readParam p r).2) rs = p
      rw [h2]
      exact ih
  refine ⟨hs, ?_, ?_, ?_, ?_, ?_, ?_, ?_, ?_, ?_, ?_⟩ <;>
    rw [hs] <;>
    simp [GetCcon, GetCpen, GetCatt, GetFpuAbsolute, GetFpuValue]

end Lc0
